/-
Verification of the multi-chain account registry of the
`accounts-react-example` dapp (file `src/accounts/AccountsContext.tsx`).

The registry keeps an insertion-ordered map from chain address to account
record, synchronizes balances and signer handles from external wallet
extensions and a balance oracle, persists a signer-free snapshot, and
derives a selected account from a stored integer index.

The embedding below models the JavaScript `Map` as an association list
with `Map.set` / `Map.delete` semantics, JavaScript numbers as dyadic
rationals rounded to the nearest IEEE-754 binary64 value, and the
external collaborators (balance oracle `sdk.balance.get`, wallet
extensions, `JSON.parse`) as function parameters whose `none` result
stands for a thrown exception / rejected promise.
-/
import Mathlib

set_option autoImplicit false
set_option maxRecDepth 20000

/-! ## JavaScript number model (IEEE-754 binary64)

JavaScript numbers are double-precision floats: values `m * 2^e` with
`|m| < 2^53`.  Every arithmetic step used by the source (`Number(...)`
on a decimal digit string, `Math.pow(10, d)`, `/`) yields the
representable value nearest to the exact rational result, ties to even.
We model the normal range only; the balances handled by the registry
never reach the subnormal or overflow thresholds.  A double is stored
in canonical form: mantissa zero or odd. -/

/-- A binary64 value in canonical form: the rational `m * 2^e` with `m`
zero or odd.  All balances in scope are nonnegative, so the mantissa is
a natural number. -/
structure Dyadic where
  m : ℕ
  e : ℤ
deriving DecidableEq

/-- 2 ^ 52, the smallest 53-bit significand. -/
def twoPow52 : ℕ := 4503599627370496

/-- 2 ^ 53, the first integer above the significand range. -/
def twoPow53 : ℕ := 9007199254740992

/-- Integer power of two as a rational, for signed exponents. -/
def pow2 (e : ℤ) : ℚ :=
  if 0 ≤ e then ((2 ^ e.toNat : ℕ) : ℚ) else ((2 ^ (-e).toNat : ℕ) : ℚ)⁻¹

/-- The exact rational value of a dyadic. -/
def Dyadic.toRat (x : Dyadic) : ℚ := (x.m : ℚ) * pow2 x.e

/-- Halve the value of the fraction `n / d` (by doubling `d`) until it is
below `2^53`, tracking the binary exponent.  Fuel bounds the recursion;
1200 steps cover the whole double range. -/
def scaleDownFP : ℕ → ℕ → ℕ → ℤ → ℕ × ℕ × ℤ
  | 0, n, d, e => (n, d, e)
  | fuel + 1, n, d, e =>
    if twoPow53 * d ≤ n then scaleDownFP fuel n (d * 2) (e + 1) else (n, d, e)

/-- Double the value of the fraction `n / d` until it reaches `2^52`,
tracking the binary exponent. -/
def scaleUpFP : ℕ → ℕ → ℕ → ℤ → ℕ × ℕ × ℤ
  | 0, n, d, e => (n, d, e)
  | fuel + 1, n, d, e =>
    if n < twoPow52 * d then scaleUpFP fuel (n * 2) d (e - 1) else (n, d, e)

/-- Round the fraction `n / d` to the nearest integer, ties to even. -/
def rne (n d : ℕ) : ℕ :=
  let q := n / d
  let r := n % d
  if 2 * r < d then q
  else if d < 2 * r then q + 1
  else if q % 2 = 0 then q else q + 1

/-- Divide powers of two out of the mantissa to reach canonical form. -/
def canonFP : ℕ → ℕ → ℤ → ℕ × ℤ
  | 0, m, e => (m, e)
  | fuel + 1, m, e =>
    if m ≠ 0 ∧ m % 2 = 0 then canonFP fuel (m / 2) (e + 1) else (m, e)

/-- Round the nonnegative fraction `n / d` (`d ≠ 0`) to the nearest
binary64 value. -/
def roundFrac (n d : ℕ) : Dyadic :=
  if n = 0 then ⟨0, 0⟩
  else
    let s := scaleDownFP 1200 n d 0
    let u := scaleUpFP 1200 s.1 s.2.1 s.2.2
    let c := canonFP 1200 (rne u.1 u.2.1) u.2.2
    ⟨c.1, c.2⟩

/-- `Number(s)` on the decimal digit string carrying the natural number
`n`: the nearest double to `n`. -/
def jsNumberOfNat (n : ℕ) : Dyadic := roundFrac n 1

/-- `Math.pow(10, d)` for a natural exponent, correctly rounded. -/
def jsPow10 (d : ℕ) : Dyadic := roundFrac (10 ^ d) 1

/-- The JavaScript `/` operator on doubles: correctly rounded division.
(Division by zero never occurs in scope: `Math.pow(10, d)` is positive.) -/
def fdiv (a b : Dyadic) : Dyadic :=
  if b.m = 0 then ⟨0, 0⟩
  else
    let f := roundFrac a.m b.m
    let c := canonFP 1200 f.m (f.e + a.e - b.e)
    ⟨c.1, c.2⟩

/-- Value of a decimal digit character. -/
def digitVal (c : Char) : Option ℕ :=
  if c.isDigit then some (c.toNat - 48) else none

/-- Parse a nonempty string of decimal digits to a natural number; the
exact value of the integer-as-string balances returned by the oracle. -/
def parseDecDigits (s : String) : Option ℕ :=
  if s.isEmpty then none
  else s.data.foldl (fun acc c => acc.bind fun n => (digitVal c).map fun d => 10 * n + d)
    (some 0)

/-- One balance-oracle response: `sdk.balance.get` returns the raw
available amount (an integer, transported as a decimal digit string and
modeled by its value) and the chain's decimal precision. -/
structure BalanceResponse where
  available : ℕ
  decimals : ℕ
deriving DecidableEq

/-- The balance computation performed at every storage site of the
source: `Number(balanceResponse.available) / Math.pow(10, Number(balanceResponse.decimals))`,
each step in binary64 arithmetic. -/
def jsBalance (available : ℕ) (decimals : ℕ) : Dyadic :=
  fdiv (jsNumberOfNat available) (jsPow10 decimals)

/-! ## Data model (`src/accounts/types` as used by `AccountsContext.tsx`)

An account record tags which synchronization path owns it
(`signerType`), carries the wallet-extension metadata, an opaque signer
capability (modeled by a numeric handle; `none` is JavaScript
`undefined`), and the last fetched balance. -/

/-- Which synchronization path owns a record. -/
inductive SignerTypeEnum
  | Ethereum
  | Polkadot
deriving DecidableEq

/-- Opaque signer capability handle granted by a wallet extension. -/
abbrev SignerHandle := ℕ

/-- One account record of the registry (`Account` in the source).
`none` on an optional field is JavaScript `undefined`. -/
structure Account where
  address : String
  normalizedAddress : String
  signerType : SignerTypeEnum
  walletType : Option String
  name : String
  signer : Option SignerHandle
  sign : Option Unit
  balance : Option Dyadic
deriving DecidableEq

/-! ## JavaScript `Map` model

`accounts` is a JavaScript `Map`, an insertion-ordered association
list: `set` of a present key updates the value in place, `set` of an
absent key appends, `delete` removes. -/

/-- Insertion-ordered map, as an association list with `String` keys. -/
abbrev JsMap (α : Type) := List (String × α)

/-- `Map.get`. -/
def mget {α : Type} : JsMap α → String → Option α
  | [], _ => none
  | p :: rest, k => if p.1 = k then some p.2 else mget rest k

/-- `Map.set`: update in place if the key is present, else append. -/
def mapSet {α : Type} : JsMap α → String → α → JsMap α
  | [], k, v => [(k, v)]
  | p :: rest, k, v => if p.1 = k then (k, v) :: rest else p :: mapSet rest k v

/-- Build a `Map` from a list of entries (`new Map(entries)`): later
entries overwrite the values of earlier ones, first occurrence fixes
the position. -/
def mapOfEntries {α : Type} (m0 : JsMap α) (entries : JsMap α) : JsMap α :=
  entries.foldl (fun acc q => mapSet acc q.1 q.2) m0

/-- The keys, in insertion order. -/
def mkeys {α : Type} (m : JsMap α) : List String := m.map Prod.fst

/-- A well-formed `Map` never holds two entries with the same key. -/
abbrev keysNodup {α : Type} (m : JsMap α) : Prop := (mkeys m).Nodup

/-- The registry's account map. -/
abbrev AccMap := JsMap Account

/-! ## Registry operations (`AccountsContextProvider`)

External collaborators are parameters: `nrm` is
`Address.extract.substrateOrMirrorIfEthereumNormalized`, `oracle` is
`sdk.balance.get` (`none` = rejected promise), `connectW` is
`connectWallet` of the wallet center, `wallets` is
`new PolkadotWallet(walletType).getAccounts()` (`none` = constructor or
enumeration threw). -/

/-- The fresh Ethereum-style record built by `updateEthereumWallet`:
`{ address, signerType: Ethereum, name: '', signer: undefined,
normalizedAddress: '', sign: undefined }` plus the fetched balance. -/
def ethereumAccount (address : String) (balance : Option Dyadic) : Account :=
  { address := address, normalizedAddress := "", signerType := .Ethereum,
    walletType := none, name := "", signer := none, sign := none, balance := balance }

/-- `updateEthereumWallet`: no-op without sdk or active address;
otherwise normalizes the active address, fetches its balance and stores
a fresh Ethereum-style record under the normalized key.  If the balance
fetch rejects, the rejection escapes before `setAccounts` runs, so the
map is unchanged. -/
def updateEthereumWallet (sdk : Bool) (nrm : String → String)
    (oracle : String → Option BalanceResponse) (address : Option String)
    (m : AccMap) : AccMap :=
  match address with
  | none => m
  | some addr =>
    if sdk = false ∨ addr = "" then m
    else
      let ethereumAddress := nrm addr
      match oracle ethereumAddress with
      | none => m
      | some br =>
        mapSet m ethereumAddress
          (ethereumAccount addr (some (jsBalance br.available br.decimals)))

/-- The in-memory half of the Ethereum-disconnect effect: delete every
record whose `signerType` is Ethereum. -/
def purgeEthereumAccounts (m : AccMap) : AccMap :=
  m.filter fun p => decide (p.2.signerType ≠ SignerTypeEnum.Ethereum)

/-- Failure modes of `setPolkadotAccountsWithBalance`: the thrown
"no accounts found or access denied" error, or a transport rejection
(wallet enumeration or balance fetch) escaping uncaught. -/
inductive ConnectError
  | noAccounts (walletName : String)
  | transport
deriving DecidableEq

/-- The per-account loop of `setPolkadotAccountsWithBalance`: tag each
enumerated account with `signerType = Polkadot` and fetch its balance.
The loop has no try/catch, so the first rejected fetch aborts the whole
batch (`none`). -/
def tagAndFetch (oracle : String → Option BalanceResponse) :
    JsMap Account → Option (JsMap Account)
  | [] => some []
  | (addr, acc) :: rest =>
    match oracle addr with
    | none => none
    | some br =>
      (tagAndFetch oracle rest).map
        (fun tail =>
          (addr,
            { acc with
              signerType := SignerTypeEnum.Polkadot
              balance := some (jsBalance br.available br.decimals) }) :: tail)

/-- `setPolkadotAccountsWithBalance`: enumerate the named wallet's
accounts, throw if none, tag and fetch balances for all of them, then
merge the whole batch over the previous map
(`new Map([...prevAccounts, ...polkadotAccounts])`). -/
def setPolkadotAccountsWithBalance (sdk : Bool)
    (connectW : String → Option (JsMap Account))
    (oracle : String → Option BalanceResponse) (walletName : String)
    (prev : AccMap) : Except ConnectError AccMap :=
  if sdk = false then .ok prev
  else
    match connectW walletName with
    | none => .error .transport
    | some polkadotAccounts =>
      if polkadotAccounts = [] then .error (.noAccounts walletName)
      else
        match tagAndFetch oracle polkadotAccounts with
        | none => .error .transport
        | some tagged => .ok (mapOfEntries [] (prev ++ tagged))

/-- What the caller's state becomes after `setPolkadotAccountsWithBalance`:
`setAccounts` runs only in the success path, so a rejected operation
leaves the registry untouched. -/
def applySetPolkadotAccountsWithBalance (sdk : Bool)
    (connectW : String → Option (JsMap Account))
    (oracle : String → Option BalanceResponse) (walletName : String)
    (prev : AccMap) : AccMap :=
  match setPolkadotAccountsWithBalance sdk connectW oracle walletName prev with
  | .ok m => m
  | .error _ => prev

/-- One iteration of the `reinitializePolkadotAccountsWithBalance` loop
over the entry `(addr, acc)`.  Returns the record as left in the
`accounts` map (the loop variable aliases the map's own object, so
`account.signer = walletAccount.signer` mutates it in place *before*
the balance fetch) and the entry added to `updatedPolkadotAccounts`
(only on a fully successful fetch; the per-account try/catch swallows
rejections). -/
def reinitIter (wallets : Option String → Option (JsMap Account))
    (oracle : String → Option BalanceResponse) (addr : String) (acc : Account) :
    Account × Option (String × Account) :=
  if acc.signerType = SignerTypeEnum.Polkadot then
    match wallets acc.walletType with
    | none => (acc, none)
    | some walletAccounts =>
      match mget walletAccounts acc.normalizedAddress with
      | none => (acc, none)
      | some walletAccount =>
        let acc1 := { acc with signer := walletAccount.signer }
        match oracle addr with
        | none => (acc1, none)
        | some br =>
          let acc2 := { acc1 with balance := some (jsBalance br.available br.decimals) }
          (acc2, some (addr, acc2))
  else (acc, none)

/-- The record left at `addr` after a reinitialization pass. -/
def reinitResult (wallets : Option String → Option (JsMap Account))
    (oracle : String → Option BalanceResponse) (addr : String) (acc : Account) :
    Account :=
  (reinitIter wallets oracle addr acc).1

/-- `reinitializePolkadotAccountsWithBalance`: no-op without sdk or on an
empty registry; otherwise runs the loop over every entry (mutating the
map's records in place) and merges `updatedPolkadotAccounts` back over
the resulting map. -/
def reinitializePolkadotAccountsWithBalance (sdk : Bool)
    (wallets : Option String → Option (JsMap Account))
    (oracle : String → Option BalanceResponse) (m : AccMap) : AccMap :=
  if sdk = false ∨ m = [] then m
  else
    let mutated := m.map fun p => (p.1, (reinitIter wallets oracle p.1 p.2).1)
    let updated := m.filterMap fun p => (reinitIter wallets oracle p.1 p.2).2
    mapOfEntries mutated updated

/-- `selectedAccount`: the derived read
`[...accounts.values()][selectedAccountId]`; any integer is accepted and
an out-of-range index dereferences to `undefined`. -/
def selectedAccount (m : AccMap) (selectedAccountId : ℤ) : Option Account :=
  if selectedAccountId < 0 then none
  else (m.map Prod.snd).get? selectedAccountId.toNat

/-! ## Persistence (`localStorage` "accounts" slot)

`JSON.stringify([...accounts])` drops the non-serializable fields: the
opaque `signer` capability (per the spec, excluded from the serialized
form) and the `undefined`/function-valued `sign`.  We model the slot by
the decoded payload it holds. -/

/-- The persisted shape of a record: every field of `Account` except the
signer capabilities. -/
structure PAccount where
  address : String
  normalizedAddress : String
  signerType : SignerTypeEnum
  walletType : Option String
  name : String
  balance : Option Dyadic
deriving DecidableEq

/-- Serialization of one record, `signer` excluded. -/
def strip (a : Account) : PAccount :=
  ⟨a.address, a.normalizedAddress, a.signerType, a.walletType, a.name, a.balance⟩

/-- Serialization of the full snapshot, `JSON.stringify([...accounts])`. -/
def stripMap (m : AccMap) : JsMap PAccount := m.map fun p => (p.1, strip p.2)

/-- A record as it comes back from a parsed snapshot: signer
capabilities are absent until a re-synchronization pass runs. -/
def rehydrate (p : PAccount) : Account :=
  ⟨p.address, p.normalizedAddress, p.signerType, p.walletType, p.name, none, none, p.balance⟩

/-- The body of the restore `try` block: `JSON.parse` of the saved
string (`parse s = none` is a throw: malformed text or a non-iterable
payload) followed by `new Map(parsedAccounts)`. -/
def restoreAccountsTry (parse : String → Option (JsMap PAccount)) (s : String) :
    Except Unit AccMap :=
  match parse s with
  | none => .error ()
  | some l => .ok (l.map fun p => (p.1, rehydrate p.2))

/-- The restore effect: absent slot yields a fresh empty map; a parse
failure is caught and logged, leaving the initial empty map; a parsed
snapshot is loaded.  No error escapes. -/
def restoreAccounts (parse : String → Option (JsMap PAccount))
    (saved : Option String) : AccMap :=
  match saved with
  | none => []
  | some s =>
    match restoreAccountsTry parse s with
    | .ok m => m
    | .error _ => []

/-- The persistence effect on the "accounts" slot: it reserializes the
snapshot whenever `accounts.size > 0` and leaves the slot alone
otherwise. -/
def persistEff (m : AccMap) (slot : Option (JsMap PAccount)) :
    Option (JsMap PAccount) :=
  if m = [] then slot else some (stripMap m)

/-- The localStorage half of the Ethereum-disconnect effect: filter the
Ethereum-style entries out of the persisted snapshot (absent or
unparsable slots are left alone). -/
def purgeSlot : Option (JsMap PAccount) → Option (JsMap PAccount)
  | none => none
  | some l => some (l.filter fun p => decide (p.2.signerType ≠ SignerTypeEnum.Ethereum))

/-- The decoded content a reload would read from the slot: an absent
slot is no saved state. -/
def decodeSlot : Option (JsMap PAccount) → JsMap PAccount
  | none => []
  | some l => l

/-- The provider's persistent state: the in-memory `accounts` map and
the "accounts" localStorage slot. -/
structure Sys where
  accounts : AccMap
  savedAccounts : Option (JsMap PAccount)

/-- `clearAccounts`: empty the map and remove the persisted slots. -/
def clearAccounts (_s : Sys) : Sys := ⟨[], none⟩

/-! ## Reachability

One step is one mutation of the `accounts` map together with the
persistence writes its effects perform.  Failed external calls are
covered by the choice of the oracle/wallet parameters of each step: an
operation whose fetch rejects leaves the map unchanged.  A rejected
`setPolkadotAccountsWithBalance` never reaches `setAccounts`, so only
its success is a step. -/

/-- Transitions of the provider state (accounts map + "accounts" slot):
`updateEthereumWallet` and its persistence effect, a successful
`setPolkadotAccountsWithBalance` batch merge and its persistence
effect, a reinitialization pass, the Ethereum-disconnect purge (its
direct slot filtering, overwritten by the persistence effect when the
purged map is nonempty), and `clearAccounts`. -/
inductive StepP (nrm : String → String) : Sys → Sys → Prop
  | updateEth (oracle : String → Option BalanceResponse) (address : String) (s : Sys) :
      StepP nrm s
        ⟨updateEthereumWallet true nrm oracle (some address) s.accounts,
         persistEff (updateEthereumWallet true nrm oracle (some address) s.accounts)
           s.savedAccounts⟩
  | connect (connectW : String → Option (JsMap Account))
      (oracle : String → Option BalanceResponse) (walletName : String) (s : Sys)
      (m' : AccMap)
      (h : setPolkadotAccountsWithBalance true connectW oracle walletName s.accounts = .ok m') :
      StepP nrm s ⟨m', persistEff m' s.savedAccounts⟩
  | reinit (wallets : Option String → Option (JsMap Account))
      (oracle : String → Option BalanceResponse) (s : Sys) :
      StepP nrm s
        ⟨reinitializePolkadotAccountsWithBalance true wallets oracle s.accounts,
         persistEff (reinitializePolkadotAccountsWithBalance true wallets oracle s.accounts)
           s.savedAccounts⟩
  | disconnect (s : Sys) :
      StepP nrm s
        ⟨purgeEthereumAccounts s.accounts,
         if purgeEthereumAccounts s.accounts = [] then purgeSlot s.savedAccounts
         else some (stripMap (purgeEthereumAccounts s.accounts))⟩
  | clear (s : Sys) : StepP nrm s (clearAccounts s)

/-- Transitions of the `accounts` map alone, with every
`updateEthereumWallet` invocation carrying the same active address
`activeAddress` (the amended hypothesis of the single-Ethereum-record
invariant). -/
inductive StepA (nrm : String → String) (activeAddress : String) : AccMap → AccMap → Prop
  | updateEth (oracle : String → Option BalanceResponse) (m : AccMap) :
      StepA nrm activeAddress m
        (updateEthereumWallet true nrm oracle (some activeAddress) m)
  | connect (connectW : String → Option (JsMap Account))
      (oracle : String → Option BalanceResponse) (walletName : String) (m m' : AccMap)
      (h : setPolkadotAccountsWithBalance true connectW oracle walletName m = .ok m') :
      StepA nrm activeAddress m m'
  | reinit (wallets : Option String → Option (JsMap Account))
      (oracle : String → Option BalanceResponse) (m : AccMap) :
      StepA nrm activeAddress m (reinitializePolkadotAccountsWithBalance true wallets oracle m)
  | disconnect (m : AccMap) : StepA nrm activeAddress m (purgeEthereumAccounts m)
  | clear (m : AccMap) : StepA nrm activeAddress m []

/-- The persistence invariant: the "accounts" slot decodes to the
signer-free serialization of the in-memory snapshot. -/
def persistedMatches (s : Sys) : Prop :=
  decodeSlot s.savedAccounts = stripMap s.accounts

/-- Every Ethereum-style record sits under the normalized form of the
one active address. -/
def ethereumKeysPinned (nrm : String → String) (activeAddress : String) (m : AccMap) : Prop :=
  ∀ p ∈ m, p.2.signerType = SignerTypeEnum.Ethereum → p.1 = nrm activeAddress

/-- The number of Ethereum-style records in the registry. -/
def countEth (m : AccMap) : ℕ :=
  (m.filter fun p => decide (p.2.signerType = SignerTypeEnum.Ethereum)).length

/-! ## Concrete sample data for witnesses and counterexamples -/

/-- An oracle answering every address with 1 raw unit at 0 decimals. -/
def sampleOracle : String → Option BalanceResponse := fun _ => some ⟨1, 0⟩

/-- An oracle whose every fetch rejects. -/
def failingOracle : String → Option BalanceResponse := fun _ => none

/-- A sample (injective) address normalization standing in for
`Address.extract.substrateOrMirrorIfEthereumNormalized`. -/
def mirror (s : String) : String := String.append "5" s

/-- A sample Polkadot-style record. -/
def samplePolkadotAccount (addr nrmAddr nm : String) : Account :=
  { address := addr, normalizedAddress := nrmAddr, signerType := SignerTypeEnum.Polkadot,
    walletType := some "polkadot-js", name := nm, signer := none, sign := none,
    balance := none }

/-- A one-account registry. -/
def sampleRegistry : AccMap := [("a1", samplePolkadotAccount "a1" "n1" "Alice")]

/-- A wallet extension whose enumeration lists the sample account's
normalized address with a fresh signer handle. -/
def sampleWallet : Option String → Option (JsMap Account) :=
  fun _ => some [("n1", { samplePolkadotAccount "a1" "n1" "Alice" with signer := some 7 })]

/-- Two enumerated accounts, as returned by a wallet connection. -/
def twoPolkadotEntries : JsMap Account :=
  [("p1", samplePolkadotAccount "p1" "np1" "One"),
   ("p2", samplePolkadotAccount "p2" "np2" "Two")]

/-- A `connectWallet` returning those two accounts for any wallet name. -/
def sampleConnectWallet : String → Option (JsMap Account) :=
  fun _ => some twoPolkadotEntries

/-- A `connectWallet` returning a single account. -/
def sampleConnectOne : String → Option (JsMap Account) :=
  fun _ => some [("p1", samplePolkadotAccount "p1" "np1" "One")]

/-- A two-account registry (for the selection-safety instance). -/
def twoAccountRegistry : AccMap :=
  [("a1", samplePolkadotAccount "a1" "n1" "One"),
   ("a2", samplePolkadotAccount "a2" "n2" "Two")]

/-- The same registry grown to six accounts. -/
def sixAccountRegistry : AccMap :=
  twoAccountRegistry ++
  [("a3", samplePolkadotAccount "a3" "n3" "Three"),
   ("a4", samplePolkadotAccount "a4" "n4" "Four"),
   ("a5", samplePolkadotAccount "a5" "n5" "Five"),
   ("a6", samplePolkadotAccount "a6" "n6" "Six")]

/-! ## Map lemmas -/

theorem mget_mapSet_self {α : Type} (m : JsMap α) (k : String) (v : α) :
    mget (mapSet m k v) k = some v := by
  induction m with
  | nil => simp [mapSet, mget]
  | cons p rest ih =>
    by_cases h : p.1 = k
    · simp [mapSet, h, mget]
    · simp [mapSet, h, mget, ih]

theorem mget_mapSet_ne {α : Type} (m : JsMap α) (k k' : String) (v : α)
    (h : k' ≠ k) : mget (mapSet m k v) k' = mget m k' := by
  induction m with
  | nil => simp [mapSet, mget, Ne.symm h]
  | cons p rest ih =>
    by_cases hp : p.1 = k
    · simp [mapSet, hp, mget, Ne.symm h, hp ▸ Ne.symm h]
    · simp [mapSet, hp, mget, ih]

theorem mapSet_ne_nil {α : Type} (m : JsMap α) (k : String) (v : α) :
    mapSet m k v ≠ [] := by
  cases m with
  | nil => simp [mapSet]
  | cons p rest =>
    by_cases h : p.1 = k <;> simp [mapSet, h]

theorem mem_mapSet {α : Type} (m : JsMap α) (k : String) (v : α)
    (q : String × α) (hq : q ∈ mapSet m k v) : q = (k, v) ∨ q ∈ m := by
  induction m with
  | nil => simpa [mapSet] using hq
  | cons p rest ih =>
    by_cases h : p.1 = k
    · simp only [mapSet, h, if_pos rfl] at hq
      rcases List.mem_cons.mp hq with h1 | h1
      · exact Or.inl h1
      · exact Or.inr (List.mem_cons_of_mem p h1)
    · simp only [mapSet, h, if_neg h] at hq
      rcases List.mem_cons.mp hq with h1 | h1
      · exact Or.inr (h1 ▸ List.mem_cons_self p rest)
      · rcases ih h1 with h2 | h2
        · exact Or.inl h2
        · exact Or.inr (List.mem_cons_of_mem p h2)

theorem mem_mkeys_mapSet {α : Type} (m : JsMap α) (k : String) (v : α)
    (x : String) (hx : x ∈ mkeys (mapSet m k v)) : x = k ∨ x ∈ mkeys m := by
  rcases List.mem_map.mp hx with ⟨q, hq, hqx⟩
  rcases mem_mapSet m k v q hq with h | h
  · exact Or.inl (by rw [← hqx, h])
  · exact Or.inr (hqx ▸ List.mem_map_of_mem Prod.fst h)

theorem keysNodup_mapSet {α : Type} (m : JsMap α) (k : String) (v : α)
    (hm : keysNodup m) : keysNodup (mapSet m k v) := by
  induction m with
  | nil => simp [mapSet, keysNodup, mkeys]
  | cons p rest ih =>
    simp only [keysNodup, mkeys, List.map_cons, List.nodup_cons] at hm
    by_cases h : p.1 = k
    · simp only [mapSet, if_pos h, keysNodup, mkeys, List.map_cons, List.nodup_cons]
      exact ⟨h ▸ hm.1, hm.2⟩
    · simp only [mapSet, if_neg h, keysNodup, mkeys, List.map_cons, List.nodup_cons]
      refine ⟨fun hmem => ?_, ih hm.2⟩
      rcases mem_mkeys_mapSet rest k v p.1 hmem with h1 | h1
      · exact h h1
      · exact hm.1 h1

theorem mapSet_eq_of_mem {α : Type} (m : JsMap α) (k : String) (v : α)
    (hm : keysNodup m) (hkv : (k, v) ∈ m) : mapSet m k v = m := by
  induction m with
  | nil => cases hkv
  | cons p rest ih =>
    simp only [keysNodup, mkeys, List.map_cons, List.nodup_cons] at hm
    by_cases h : p.1 = k
    · rcases List.mem_cons.mp hkv with h1 | h1
      · simp [mapSet, h, ← h1]
      · exact absurd (h ▸ List.mem_map_of_mem Prod.fst h1) hm.1
    · rcases List.mem_cons.mp hkv with h1 | h1
      · exact absurd (congrArg Prod.fst h1.symm) h
      · simp [mapSet, h, ih hm.2 h1]

theorem mapOfEntries_cons {α : Type} (m0 : JsMap α) (q : String × α)
    (l : JsMap α) : mapOfEntries m0 (q :: l) = mapOfEntries (mapSet m0 q.1 q.2) l := rfl

theorem mapOfEntries_append {α : Type} (m0 : JsMap α) (l1 l2 : JsMap α) :
    mapOfEntries m0 (l1 ++ l2) = mapOfEntries (mapOfEntries m0 l1) l2 := by
  simp [mapOfEntries, List.foldl_append]

theorem mem_mapOfEntries {α : Type} (P : String × α → Prop) (m0 l : JsMap α)
    (h0 : ∀ q ∈ m0, P q) (hl : ∀ q ∈ l, P q) :
    ∀ q ∈ mapOfEntries m0 l, P q := by
  induction l generalizing m0 with
  | nil => exact h0
  | cons p rest ih =>
    rw [mapOfEntries_cons]
    refine ih (mapSet m0 p.1 p.2) (fun q hq => ?_) (fun q hq => hl q (List.mem_cons_of_mem p hq))
    rcases mem_mapSet m0 p.1 p.2 q hq with h1 | h1
    · exact h1 ▸ hl p (List.mem_cons_self p rest)
    · exact h0 q h1

theorem keysNodup_mapOfEntries {α : Type} (m0 l : JsMap α)
    (h0 : keysNodup m0) : keysNodup (mapOfEntries m0 l) := by
  induction l generalizing m0 with
  | nil => exact h0
  | cons p rest ih => exact mapOfEntries_cons m0 p rest ▸ ih _ (keysNodup_mapSet m0 p.1 p.2 h0)

theorem mapOfEntries_ne_nil {α : Type} (m0 l : JsMap α) (h0 : m0 ≠ []) :
    mapOfEntries m0 l ≠ [] := by
  induction l generalizing m0 with
  | nil => exact h0
  | cons p rest ih => exact mapOfEntries_cons m0 p rest ▸ ih _ (mapSet_ne_nil m0 p.1 p.2)

theorem mapOfEntries_ne_nil_of_entries {α : Type} (m0 l : JsMap α) (hl : l ≠ []) :
    mapOfEntries m0 l ≠ [] := by
  cases l with
  | nil => exact absurd rfl hl
  | cons p rest =>
    exact mapOfEntries_cons m0 p rest ▸ mapOfEntries_ne_nil _ rest (mapSet_ne_nil m0 p.1 p.2)

theorem mapOfEntries_eq_self {α : Type} (m0 l : JsMap α) (h0 : keysNodup m0)
    (hl : ∀ q ∈ l, q ∈ m0) : mapOfEntries m0 l = m0 := by
  induction l with
  | nil => rfl
  | cons p rest ih =>
    have hp : (p.1, p.2) ∈ m0 := hl p (List.mem_cons_self p rest)
    rw [mapOfEntries_cons, mapSet_eq_of_mem m0 p.1 p.2 h0 hp]
    exact ih fun q hq => hl q (List.mem_cons_of_mem p hq)

theorem mget_map {α β : Type} (f : String → α → β) (m : JsMap α) (k : String) :
    mget (m.map fun p => (p.1, f p.1 p.2)) k = (mget m k).map (f k) := by
  induction m with
  | nil => simp [mget]
  | cons p rest ih =>
    by_cases h : p.1 = k
    · simp [mget, h]
    · simp [mget, h, ih]

theorem mkeys_map {α β : Type} (f : String → α → β) (m : JsMap α) :
    mkeys (m.map fun p => (p.1, f p.1 p.2)) = mkeys m := by
  simp [mkeys, List.map_map]

/-! ## Reinitialization lemmas -/

theorem reinitIter_snd_eq (w : Option String → Option (JsMap Account))
    (o : String → Option BalanceResponse) (addr : String) (acc : Account)
    (p : String × Account) (h : (reinitIter w o addr acc).2 = some p) :
    p = (addr, (reinitIter w o addr acc).1) := by
  by_cases hsig : acc.signerType = SignerTypeEnum.Polkadot
  · cases hw : w acc.walletType with
    | none => simp [reinitIter, hsig, hw] at h
    | some wl =>
      cases hg : mget wl acc.normalizedAddress with
      | none => simp [reinitIter, hsig, hw, hg] at h
      | some wa =>
        cases ho : o addr with
        | none => simp [reinitIter, hsig, hw, hg, ho] at h
        | some br =>
          simp only [reinitIter, hsig, if_pos rfl, hw, hg, ho] at h ⊢
          exact (Option.some_inj.mp h).symm
  · simp [reinitIter, hsig] at h

theorem reinit_eq_map (w : Option String → Option (JsMap Account))
    (o : String → Option BalanceResponse) (m : AccMap) (hm : keysNodup m) :
    reinitializePolkadotAccountsWithBalance true w o m
      = m.map fun p => (p.1, reinitResult w o p.1 p.2) := by
  by_cases h0 : m = []
  · subst h0; rfl
  · unfold reinitializePolkadotAccountsWithBalance
    rw [if_neg (show ¬(true = false ∨ m = []) by simp [h0])]
    apply mapOfEntries_eq_self
    · unfold keysNodup
      rw [mkeys_map (fun k a => (reinitIter w o k a).1) m]
      exact hm
    · intro q hq
      rcases List.mem_filterMap.mp hq with ⟨p, hp, hq2⟩
      rw [reinitIter_snd_eq w o p.1 p.2 q hq2]
      exact List.mem_map_of_mem (fun p => (p.1, (reinitIter w o p.1 p.2).1)) hp

theorem mget_reinit (w : Option String → Option (JsMap Account))
    (o : String → Option BalanceResponse) (m : AccMap) (k : String)
    (hm : keysNodup m) :
    mget (reinitializePolkadotAccountsWithBalance true w o m) k
      = (mget m k).map (reinitResult w o k) := by
  rw [reinit_eq_map w o m hm]
  exact mget_map (reinitResult w o) m k

theorem reinitResult_not_polkadot (w : Option String → Option (JsMap Account))
    (o : String → Option BalanceResponse) (addr : String) (acc : Account)
    (h : acc.signerType ≠ SignerTypeEnum.Polkadot) : reinitResult w o addr acc = acc := by
  simp [reinitResult, reinitIter, h]

theorem reinitResult_wallet_throw (w : Option String → Option (JsMap Account))
    (o : String → Option BalanceResponse) (addr : String) (acc : Account)
    (hsig : acc.signerType = SignerTypeEnum.Polkadot)
    (hw : w acc.walletType = none) : reinitResult w o addr acc = acc := by
  simp [reinitResult, reinitIter, hsig, hw]

theorem reinitResult_no_match (w : Option String → Option (JsMap Account))
    (o : String → Option BalanceResponse) (addr : String) (acc : Account)
    (wl : JsMap Account) (hsig : acc.signerType = SignerTypeEnum.Polkadot)
    (hw : w acc.walletType = some wl)
    (hg : mget wl acc.normalizedAddress = none) : reinitResult w o addr acc = acc := by
  simp [reinitResult, reinitIter, hsig, hw, hg]

theorem reinitResult_oracle_throw (w : Option String → Option (JsMap Account))
    (o : String → Option BalanceResponse) (addr : String) (acc : Account)
    (wl : JsMap Account) (wa : Account)
    (hsig : acc.signerType = SignerTypeEnum.Polkadot)
    (hw : w acc.walletType = some wl)
    (hg : mget wl acc.normalizedAddress = some wa) (ho : o addr = none) :
    reinitResult w o addr acc = { acc with signer := wa.signer } := by
  simp [reinitResult, reinitIter, hsig, hw, hg, ho]

theorem reinitResult_success (w : Option String → Option (JsMap Account))
    (o : String → Option BalanceResponse) (addr : String) (acc : Account)
    (wl : JsMap Account) (wa : Account) (br : BalanceResponse)
    (hsig : acc.signerType = SignerTypeEnum.Polkadot)
    (hw : w acc.walletType = some wl)
    (hg : mget wl acc.normalizedAddress = some wa) (ho : o addr = some br) :
    reinitResult w o addr acc
      = { acc with
          signer := wa.signer
          balance := some (jsBalance br.available br.decimals) } := by
  simp [reinitResult, reinitIter, hsig, hw, hg, ho]

theorem reinitResult_signerType (w : Option String → Option (JsMap Account))
    (o : String → Option BalanceResponse) (addr : String) (acc : Account) :
    (reinitResult w o addr acc).signerType = acc.signerType := by
  by_cases hsig : acc.signerType = SignerTypeEnum.Polkadot
  · cases hw : w acc.walletType with
    | none => rw [reinitResult_wallet_throw w o addr acc hsig hw]
    | some wl =>
      cases hg : mget wl acc.normalizedAddress with
      | none => rw [reinitResult_no_match w o addr acc wl hsig hw hg]
      | some wa =>
        cases ho : o addr with
        | none => rw [reinitResult_oracle_throw w o addr acc wl wa hsig hw hg ho]
        | some br => rw [reinitResult_success w o addr acc wl wa br hsig hw hg ho]
  · rw [reinitResult_not_polkadot w o addr acc hsig]

theorem reinitResult_idem (w : Option String → Option (JsMap Account))
    (o : String → Option BalanceResponse) (addr : String) (acc : Account) :
    reinitResult w o addr (reinitResult w o addr acc) = reinitResult w o addr acc := by
  by_cases hsig : acc.signerType = SignerTypeEnum.Polkadot
  · cases hw : w acc.walletType with
    | none =>
      rw [reinitResult_wallet_throw w o addr acc hsig hw]
      exact reinitResult_wallet_throw w o addr acc hsig hw
    | some wl =>
      cases hg : mget wl acc.normalizedAddress with
      | none =>
        rw [reinitResult_no_match w o addr acc wl hsig hw hg]
        exact reinitResult_no_match w o addr acc wl hsig hw hg
      | some wa =>
        cases ho : o addr with
        | none =>
          rw [reinitResult_oracle_throw w o addr acc wl wa hsig hw hg ho]
          exact reinitResult_oracle_throw w o addr { acc with signer := wa.signer } wl wa
            hsig hw hg ho
        | some br =>
          rw [reinitResult_success w o addr acc wl wa br hsig hw hg ho]
          exact reinitResult_success w o addr
            { acc with
              signer := wa.signer
              balance := some (jsBalance br.available br.decimals) } wl wa br hsig hw hg ho
  · rw [reinitResult_not_polkadot w o addr acc hsig]
    exact reinitResult_not_polkadot w o addr acc hsig

/-! ## Serialization and operation-shape lemmas -/

theorem stripMap_eq_nil (m : AccMap) (h : stripMap m = []) : m = [] := by
  simpa [stripMap] using h

theorem stripMap_purge (m : AccMap) :
    stripMap (purgeEthereumAccounts m)
      = (stripMap m).filter fun p => decide (p.2.signerType ≠ SignerTypeEnum.Ethereum) := by
  induction m with
  | nil => rfl
  | cons p rest ih =>
    by_cases h : p.2.signerType = SignerTypeEnum.Ethereum
    · simp [purgeEthereumAccounts, stripMap, List.filter_cons, h, strip] at ih ⊢
      simpa [purgeEthereumAccounts, stripMap] using ih
    · simp [purgeEthereumAccounts, stripMap, List.filter_cons, h, strip] at ih ⊢
      simpa [purgeEthereumAccounts, stripMap] using ih

theorem tagAndFetch_ne_nil (o : String → Option BalanceResponse)
    (l t : JsMap Account) (hl : l ≠ []) (h : tagAndFetch o l = some t) : t ≠ [] := by
  cases l with
  | nil => exact absurd rfl hl
  | cons p rest =>
    cases ho : o p.1 with
    | none => rw [tagAndFetch, ho] at h; cases h
    | some br =>
      rw [tagAndFetch, ho] at h
      rcases Option.map_eq_some'.mp h with ⟨tail, _, htail⟩
      simp [← htail]

theorem tagAndFetch_polkadot (o : String → Option BalanceResponse)
    (l t : JsMap Account) (h : tagAndFetch o l = some t) :
    ∀ q ∈ t, q.2.signerType = SignerTypeEnum.Polkadot := by
  induction l generalizing t with
  | nil =>
    rw [tagAndFetch] at h
    cases h
    intro q hq
    cases hq
  | cons p rest ih =>
    cases ho : o p.1 with
    | none => rw [tagAndFetch, ho] at h; cases h
    | some br =>
      rw [tagAndFetch, ho] at h
      rcases Option.map_eq_some'.mp h with ⟨tail, htail, hcons⟩
      intro q hq
      rw [← hcons] at hq
      rcases List.mem_cons.mp hq with h1 | h1
      · rw [h1]
      · exact ih tail htail q h1

theorem setPolkadot_ok_ne_nil (connectW : String → Option (JsMap Account))
    (o : String → Option BalanceResponse) (walletName : String) (prev m' : AccMap)
    (h : setPolkadotAccountsWithBalance true connectW o walletName prev = .ok m') :
    m' ≠ [] := by
  rw [setPolkadotAccountsWithBalance, if_neg (by simp)] at h
  cases hc : connectW walletName with
  | none => rw [hc] at h; cases h
  | some l =>
    rw [hc] at h
    dsimp only at h
    by_cases hl : l = []
    · rw [if_pos hl] at h; cases h
    · rw [if_neg hl] at h
      cases ht : tagAndFetch o l with
      | none => rw [ht] at h; cases h
      | some tagged =>
        rw [ht] at h
        dsimp only at h
        cases h
        exact mapOfEntries_ne_nil_of_entries [] (prev ++ tagged)
          (List.append_ne_nil_of_right_ne_nil prev (tagAndFetch_ne_nil o l tagged hl ht))

theorem updateEth_shape (nrm : String → String) (o : String → Option BalanceResponse)
    (address : Option String) (m : AccMap) :
    updateEthereumWallet true nrm o address m = m
      ∨ updateEthereumWallet true nrm o address m ≠ [] := by
  cases address with
  | none => exact Or.inl rfl
  | some addr =>
    by_cases hg : (true = false ∨ addr = "")
    · exact Or.inl (by rw [updateEthereumWallet, if_pos hg])
    · cases ho : o (nrm addr) with
      | none =>
        refine Or.inl ?_
        rw [updateEthereumWallet, if_neg hg]
        dsimp only
        rw [ho]
      | some br =>
        refine Or.inr ?_
        rw [updateEthereumWallet, if_neg hg]
        dsimp only
        rw [ho]
        exact mapSet_ne_nil m (nrm addr) _

theorem reinit_shape (w : Option String → Option (JsMap Account))
    (o : String → Option BalanceResponse) (m : AccMap) :
    reinitializePolkadotAccountsWithBalance true w o m = m
      ∨ reinitializePolkadotAccountsWithBalance true w o m ≠ [] := by
  by_cases hg : (true = false ∨ m = [])
  · exact Or.inl (by rw [reinitializePolkadotAccountsWithBalance, if_pos hg])
  · refine Or.inr ?_
    rw [reinitializePolkadotAccountsWithBalance, if_neg hg]
    have hm : m ≠ [] := by
      rcases not_or.mp hg with ⟨_, h2⟩
      exact h2
    apply mapOfEntries_ne_nil
    simpa using hm

theorem persistEff_decode (m m' : AccMap) (slot : Option (JsMap PAccount))
    (hInv : decodeSlot slot = stripMap m) (hcase : m' = m ∨ m' ≠ []) :
    decodeSlot (persistEff m' slot) = stripMap m' := by
  by_cases h : m' = []
  · rcases hcase with h1 | h1
    · rw [persistEff, if_pos h, hInv, h1]
    · exact absurd h h1
  · rw [persistEff, if_neg h, decodeSlot]

theorem purgeSlot_decode (m : AccMap) (slot : Option (JsMap PAccount))
    (hInv : decodeSlot slot = stripMap m) :
    decodeSlot (purgeSlot slot) = stripMap (purgeEthereumAccounts m) := by
  cases slot with
  | none =>
    have hm : m = [] := stripMap_eq_nil m hInv.symm
    subst hm
    rfl
  | some l =>
    have hl : l = stripMap m := hInv
    rw [purgeSlot, decodeSlot, hl, stripMap_purge]

/-! ## Invariant preservation -/

theorem stepP_preserves (nrm : String → String) (s t : Sys)
    (hInv : persistedMatches s) (hstep : StepP nrm s t) : persistedMatches t := by
  cases hstep with
  | updateEth oracle address =>
    exact persistEff_decode s.accounts _ s.savedAccounts hInv
      (updateEth_shape nrm oracle (some address) s.accounts)
  | connect connectW oracle walletName _ m' h =>
    exact persistEff_decode s.accounts m' s.savedAccounts hInv
      (Or.inr (setPolkadot_ok_ne_nil connectW oracle walletName s.accounts m' h))
  | reinit wallets oracle =>
    exact persistEff_decode s.accounts _ s.savedAccounts hInv
      (reinit_shape wallets oracle s.accounts)
  | disconnect =>
    show decodeSlot (if purgeEthereumAccounts s.accounts = [] then purgeSlot s.savedAccounts
      else some (stripMap (purgeEthereumAccounts s.accounts)))
      = stripMap (purgeEthereumAccounts s.accounts)
    by_cases hp : purgeEthereumAccounts s.accounts = []
    · rw [if_pos hp]
      exact purgeSlot_decode s.accounts s.savedAccounts hInv
    · rw [if_neg hp]
      rfl
  | clear => rfl

theorem updateEth_pinned (nrm : String → String) (a : String)
    (o : String → Option BalanceResponse) (m : AccMap)
    (h1 : keysNodup m) (h2 : ethereumKeysPinned nrm a m) :
    keysNodup (updateEthereumWallet true nrm o (some a) m)
      ∧ ethereumKeysPinned nrm a (updateEthereumWallet true nrm o (some a) m) := by
  by_cases hg : (true = false ∨ a = "")
  · rw [updateEthereumWallet, if_pos hg]
    exact ⟨h1, h2⟩
  · cases ho : o (nrm a) with
    | none =>
      rw [updateEthereumWallet, if_neg hg]
      dsimp only
      rw [ho]
      exact ⟨h1, h2⟩
    | some br =>
      rw [updateEthereumWallet, if_neg hg]
      dsimp only
      rw [ho]
      refine ⟨keysNodup_mapSet m (nrm a) _ h1, fun q hq hqe => ?_⟩
      rcases mem_mapSet m (nrm a) _ q hq with h | h
      · rw [h]
      · exact h2 q h hqe

theorem setPolkadot_ok_pinned (nrm : String → String) (a : String)
    (connectW : String → Option (JsMap Account)) (o : String → Option BalanceResponse)
    (walletName : String) (prev m' : AccMap)
    (h : setPolkadotAccountsWithBalance true connectW o walletName prev = .ok m')
    (h2 : ethereumKeysPinned nrm a prev) :
    keysNodup m' ∧ ethereumKeysPinned nrm a m' := by
  rw [setPolkadotAccountsWithBalance, if_neg (by simp)] at h
  cases hc : connectW walletName with
  | none => rw [hc] at h; cases h
  | some l =>
    rw [hc] at h
    dsimp only at h
    by_cases hl : l = []
    · rw [if_pos hl] at h; cases h
    · rw [if_neg hl] at h
      cases ht : tagAndFetch o l with
      | none => rw [ht] at h; cases h
      | some tagged =>
        rw [ht] at h
        dsimp only at h
        cases h
        constructor
        · exact keysNodup_mapOfEntries [] (prev ++ tagged) (by simp [keysNodup, mkeys])
        · intro q hq
          refine mem_mapOfEntries
            (fun q => q.2.signerType = SignerTypeEnum.Ethereum → q.1 = nrm a)
            [] (prev ++ tagged) (fun q hq0 => absurd hq0 (List.not_mem_nil q))
            (fun q hq1 => ?_) q hq
          rcases List.mem_append.mp hq1 with hql | hqr
          · exact h2 q hql
          · intro hqe
            rw [tagAndFetch_polkadot o l tagged ht q hqr] at hqe
            cases hqe

theorem reinit_pinned (nrm : String → String) (a : String)
    (w : Option String → Option (JsMap Account)) (o : String → Option BalanceResponse)
    (m : AccMap) (h1 : keysNodup m) (h2 : ethereumKeysPinned nrm a m) :
    keysNodup (reinitializePolkadotAccountsWithBalance true w o m)
      ∧ ethereumKeysPinned nrm a (reinitializePolkadotAccountsWithBalance true w o m) := by
  rw [reinit_eq_map w o m h1]
  constructor
  · unfold keysNodup
    rw [mkeys_map (fun k acc => reinitResult w o k acc) m]
    exact h1
  · intro q hq hqe
    rcases List.mem_map.mp hq with ⟨p, hp, hpq⟩
    rw [← hpq] at hqe ⊢
    exact h2 p hp (by rw [← reinitResult_signerType w o p.1 p.2]; exact hqe)

theorem purge_pinned (nrm : String → String) (a : String) (m : AccMap)
    (h1 : keysNodup m) :
    keysNodup (purgeEthereumAccounts m)
      ∧ ethereumKeysPinned nrm a (purgeEthereumAccounts m) := by
  constructor
  · exact List.Nodup.sublist (List.Sublist.map Prod.fst (List.filter_sublist m)) h1
  · intro q hq hqe
    have := (List.mem_filter.mp hq).2
    rw [decide_eq_true_eq] at this
    exact absurd hqe this

theorem stepA_preserves (nrm : String → String) (a : String) (m t : AccMap)
    (h1 : keysNodup m) (h2 : ethereumKeysPinned nrm a m) (hstep : StepA nrm a m t) :
    keysNodup t ∧ ethereumKeysPinned nrm a t := by
  cases hstep with
  | updateEth oracle => exact updateEth_pinned nrm a oracle m h1 h2
  | connect connectW oracle walletName _ _ h =>
    exact setPolkadot_ok_pinned nrm a connectW oracle walletName m t h h2
  | reinit wallets oracle => exact reinit_pinned nrm a wallets oracle m h1 h2
  | disconnect => exact purge_pinned nrm a m h1
  | clear => exact ⟨by simp [keysNodup, mkeys], fun q hq => absurd hq (List.not_mem_nil q)⟩

theorem countEth_le_one (nrm : String → String) (a : String) (m : AccMap) :
    keysNodup m → ethereumKeysPinned nrm a m → countEth m ≤ 1 := by
  induction m with
  | nil => intro _ _; simp [countEth]
  | cons p rest ih =>
    intro h1 h2
    simp only [keysNodup, mkeys, List.map_cons, List.nodup_cons] at h1
    by_cases hp : p.2.signerType = SignerTypeEnum.Ethereum
    · have hrest0 : countEth rest = 0 := by
        rw [countEth, List.length_eq_zero, List.filter_eq_nil_iff]
        intro q hq
        simp only [decide_eq_true_eq]
        intro hqe
        apply h1.1
        have hq1 : q.1 = nrm a := h2 q (List.mem_cons_of_mem p hq) hqe
        have hp1 : p.1 = nrm a := h2 p (List.mem_cons_self p rest) hp
        rw [hp1, ← hq1]
        exact List.mem_map_of_mem Prod.fst hq
      have hstep : countEth (p :: rest) = countEth rest + 1 := by
        simp [countEth, List.filter_cons, hp]
      omega
    · have hstep : countEth (p :: rest) = countEth rest := by
        simp [countEth, List.filter_cons, hp]
      have := ih h1.2 fun q hq => h2 q (List.mem_cons_of_mem p hq)
      omega

theorem tagAndFetch_none (o : String → Option BalanceResponse) (l : JsMap Account)
    (hf : ∃ q ∈ l, o q.1 = none) : tagAndFetch o l = none := by
  induction l with
  | nil =>
    rcases hf with ⟨q, hq, _⟩
    cases hq
  | cons p rest ih =>
    obtain ⟨addr, acc⟩ := p
    rcases hf with ⟨q, hq, hqo⟩
    rcases List.mem_cons.mp hq with h1 | h1
    · have hoa : o addr = none := by rw [show addr = q.1 from by rw [h1]]; exact hqo
      rw [tagAndFetch, hoa]
    · cases ho : o addr with
      | none => rw [tagAndFetch, ho]
      | some br =>
        rw [tagAndFetch, ho, ih ⟨q, h1, hqo⟩]
        rfl

theorem tagAndFetch_balance (o : String → Option BalanceResponse) (l t : JsMap Account)
    (h : tagAndFetch o l = some t) :
    ∀ q ∈ t, ∃ br, o q.1 = some br
      ∧ q.2.balance = some (jsBalance br.available br.decimals) := by
  induction l generalizing t with
  | nil =>
    rw [tagAndFetch] at h
    cases h
    intro q hq
    cases hq
  | cons p rest ih =>
    obtain ⟨addr, acc⟩ := p
    cases ho : o addr with
    | none => rw [tagAndFetch, ho] at h; cases h
    | some br =>
      rw [tagAndFetch, ho] at h
      rcases Option.map_eq_some'.mp h with ⟨tail, htail, hcons⟩
      intro q hq
      rw [← hcons] at hq
      rcases List.mem_cons.mp hq with h1 | h1
      · exact ⟨br, by rw [h1]; exact ho, by rw [h1]⟩
      · exact ih tail htail q h1

/-! ## The claims -/

/-- C1 counterexample: the claimed invariant "at most one Ethereum-style
record in every reachable state" fails as stated: two successive
`updateEthereumWallet` invocations whose active address changes from
"a" to "b" without an intervening disconnect purge leave two
Ethereum-style records in the registry. -/
theorem c1_counterexample :
    countEth (updateEthereumWallet true mirror sampleOracle (some "b")
      (updateEthereumWallet true mirror sampleOracle (some "a") [])) = 2 := by decide

/-- C1 (amended): whenever every `updateEthereumWallet` invocation of the
operation sequence carries the same active address, every reachable
registry state holds at most one Ethereum-style record; switching the
active address without a disconnect purge is the only way to get two. -/
theorem c1_single_ethereum_record (nrm : String → String) (activeAddress : String)
    (m : AccMap) (h : Relation.ReflTransGen (StepA nrm activeAddress) [] m) :
    countEth m ≤ 1 := by
  have hinv : keysNodup m ∧ ethereumKeysPinned nrm activeAddress m := by
    induction h with
    | refl => exact ⟨by simp [keysNodup, mkeys], fun q hq => absurd hq (List.not_mem_nil q)⟩
    | tail h1 h2 ih => exact stepA_preserves nrm activeAddress _ _ ih.1 ih.2 h2
  exact countEth_le_one nrm activeAddress m hinv.1 hinv.2

/-- C1 witness: one Ethereum update from the empty registry reaches a
state with at most one Ethereum-style record. -/
theorem c1_witness :
    countEth (updateEthereumWallet true mirror sampleOracle (some "a") []) ≤ 1 :=
  c1_single_ethereum_record mirror "a" _
    (Relation.ReflTransGen.single (StepA.updateEth sampleOracle []))

/-- C2: in every reachable provider state the persisted "accounts" slot
decodes to the signer-free serialization of the current snapshot, so a
reload yields every record's address/name/balance data with no signer
capability. -/
theorem c2_persistence_snapshot (nrm : String → String) (s : Sys)
    (h : Relation.ReflTransGen (StepP nrm) ⟨[], none⟩ s) :
    decodeSlot s.savedAccounts = stripMap s.accounts ∧
      (decodeSlot s.savedAccounts).map (fun p => (p.1, rehydrate p.2))
        = s.accounts.map fun p => (p.1, { p.2 with signer := none, sign := none }) := by
  have hinv : persistedMatches s := by
    induction h with
    | refl => rfl
    | tail h1 h2 ih => exact stepP_preserves nrm _ _ ih h2
  refine ⟨hinv, ?_⟩
  rw [hinv, stripMap, List.map_map]
  rfl

/-- C2 witness: the invariant applied to the initial provider state. -/
theorem c2_witness :
    decodeSlot (Sys.mk [] none).savedAccounts = stripMap (Sys.mk [] none).accounts :=
  (c2_persistence_snapshot (fun s => s) ⟨[], none⟩ Relation.ReflTransGen.refl).1

/-- C3 counterexample: the claim says per-account transport failures in
`setPolkadotAccountsWithBalance` are caught and never propagate; with
two enumerated accounts and a balance oracle whose fetches reject, the
operation rejects as a whole, so the failure does propagate to the
caller. -/
theorem c3_counterexample :
    setPolkadotAccountsWithBalance true sampleConnectWallet failingOracle
      "polkadot-js" [] = .error .transport := rfl

/-- C3 (amended): in `reinitializePolkadotAccountsWithBalance` a
transport failure while processing one account is caught, the remaining
accounts are still processed (each account's final record depends only
on its own fetches) and no error propagates (the operation is total);
in `setPolkadotAccountsWithBalance`, by contrast, a balance-fetch
failure after a nonempty enumeration rejects the whole batch and
propagates to the caller. -/
theorem c3_per_account_isolation :
    (∀ (w : Option String → Option (JsMap Account))
        (o : String → Option BalanceResponse) (m : AccMap) (addr : String)
        (acc : Account), keysNodup m → mget m addr = some acc →
        mget (reinitializePolkadotAccountsWithBalance true w o m) addr
          = some (reinitResult w o addr acc)) ∧
      (∀ (cw : String → Option (JsMap Account))
          (o : String → Option BalanceResponse) (name : String)
          (prev l : JsMap Account), cw name = some l → l ≠ [] →
          tagAndFetch o l = none →
          setPolkadotAccountsWithBalance true cw o name prev = .error .transport) := by
  constructor
  · intro w o m addr acc hm hget
    rw [mget_reinit w o m addr hm, hget]
    rfl
  · intro cw o name prev l hc hl ht
    rw [setPolkadotAccountsWithBalance, if_neg (by simp), hc]
    dsimp only
    rw [if_neg hl, ht]

/-- C3 witness: the failed fetch for the sample account leaves the
operation total and the batch abort of the connect path at concrete
inputs. -/
theorem c3_witness :
    mget (reinitializePolkadotAccountsWithBalance true sampleWallet failingOracle
        sampleRegistry) "a1"
      = some (reinitResult sampleWallet failingOracle "a1"
          (samplePolkadotAccount "a1" "n1" "Alice")) ∧
      setPolkadotAccountsWithBalance true sampleConnectWallet failingOracle "talisman" []
        = .error .transport :=
  ⟨c3_per_account_isolation.1 sampleWallet failingOracle sampleRegistry "a1"
      (samplePolkadotAccount "a1" "n1" "Alice") (by decide) (by decide),
   c3_per_account_isolation.2 sampleConnectWallet failingOracle "talisman" []
      twoPolkadotEntries rfl (by decide) rfl⟩

/-- C4 counterexample: the claim says a failed fetch leaves the record
exactly in its prior state; but when the wallet listing succeeds and
the balance fetch then rejects, the loop has already refreshed the
record's signer in place, so the record differs from its prior state. -/
theorem c4_counterexample :
    mget (reinitializePolkadotAccountsWithBalance true sampleWallet failingOracle
        sampleRegistry) "a1" ≠ mget sampleRegistry "a1" := by decide

/-- C4 (amended): per account, a failed wallet listing or a missing
matching address leaves the record unchanged; a successful listing
followed by a failed balance fetch refreshes `signer` in place while
leaving `balance` unchanged; balance changes only on a fully
successful fetch. -/
theorem c4_failed_fetch_effect (w : Option String → Option (JsMap Account))
    (o : String → Option BalanceResponse) (m : AccMap) (addr : String)
    (acc : Account) (hm : keysNodup m) (hget : mget m addr = some acc)
    (hsig : acc.signerType = SignerTypeEnum.Polkadot) :
    (w acc.walletType = none →
        mget (reinitializePolkadotAccountsWithBalance true w o m) addr = some acc) ∧
      (∀ wl, w acc.walletType = some wl → mget wl acc.normalizedAddress = none →
        mget (reinitializePolkadotAccountsWithBalance true w o m) addr = some acc) ∧
      (∀ wl wa, w acc.walletType = some wl → mget wl acc.normalizedAddress = some wa →
        o addr = none →
        mget (reinitializePolkadotAccountsWithBalance true w o m) addr
          = some { acc with signer := wa.signer }) ∧
      (∀ wl wa br, w acc.walletType = some wl → mget wl acc.normalizedAddress = some wa →
        o addr = some br →
        mget (reinitializePolkadotAccountsWithBalance true w o m) addr
          = some { acc with
                   signer := wa.signer
                   balance := some (jsBalance br.available br.decimals) }) := by
  refine ⟨?_, ?_, ?_, ?_⟩
  · intro hw
    rw [mget_reinit w o m addr hm, hget, Option.map_some',
      reinitResult_wallet_throw w o addr acc hsig hw]
  · intro wl hw hg
    rw [mget_reinit w o m addr hm, hget, Option.map_some',
      reinitResult_no_match w o addr acc wl hsig hw hg]
  · intro wl wa hw hg ho
    rw [mget_reinit w o m addr hm, hget, Option.map_some',
      reinitResult_oracle_throw w o addr acc wl wa hsig hw hg ho]
  · intro wl wa br hw hg ho
    rw [mget_reinit w o m addr hm, hget, Option.map_some',
      reinitResult_success w o addr acc wl wa br hsig hw hg ho]

/-- C4 witness: at the sample registry, the oracle-rejection branch
yields the record with the refreshed signer handle. -/
theorem c4_witness :
    mget (reinitializePolkadotAccountsWithBalance true sampleWallet failingOracle
        sampleRegistry) "a1"
      = some { samplePolkadotAccount "a1" "n1" "Alice" with signer := some 7 } :=
  (c4_failed_fetch_effect sampleWallet failingOracle sampleRegistry "a1"
      (samplePolkadotAccount "a1" "n1" "Alice") (by decide) (by decide) (by decide)).2.2.1
    [("n1", { samplePolkadotAccount "a1" "n1" "Alice" with signer := some 7 })]
    { samplePolkadotAccount "a1" "n1" "Alice" with signer := some 7 }
    rfl (by decide) rfl

/-- C5: a balance refresh of an already-registered account stores a
record that differs from the prior one only in `balance`: the Ethereum
update of the already-registered active address, the reinitialization
pass with the wallet reporting the stored signer, and the reconnect
merge with the wallet reporting the stored account data each leave
name, walletType, normalizedAddress and signer unchanged. -/
theorem c5_balance_refresh_frame :
    (∀ (nrm : String → String) (o : String → Option BalanceResponse)
        (addr : String) (m : AccMap) (b : Option Dyadic) (br : BalanceResponse),
        addr ≠ "" →
        mget m (nrm addr) = some (ethereumAccount addr b) →
        o (nrm addr) = some br →
        mget (updateEthereumWallet true nrm o (some addr) m) (nrm addr)
          = some { ethereumAccount addr b with
                   balance := some (jsBalance br.available br.decimals) }) ∧
      (∀ (w : Option String → Option (JsMap Account))
          (o : String → Option BalanceResponse) (m : AccMap) (addr : String)
          (acc : Account) (wl : JsMap Account) (wa : Account) (br : BalanceResponse),
          keysNodup m → mget m addr = some acc →
          acc.signerType = SignerTypeEnum.Polkadot →
          w acc.walletType = some wl → mget wl acc.normalizedAddress = some wa →
          wa.signer = acc.signer → o addr = some br →
          mget (reinitializePolkadotAccountsWithBalance true w o m) addr
            = some { acc with balance := some (jsBalance br.available br.decimals) }) ∧
      (∀ (cw : String → Option (JsMap Account))
          (o : String → Option BalanceResponse) (name addr : String)
          (prev : AccMap) (wacc old : Account) (b : Option Dyadic)
          (br : BalanceResponse),
          cw name = some [(addr, wacc)] →
          old = { wacc with signerType := SignerTypeEnum.Polkadot, balance := b } →
          mget prev addr = some old →
          o addr = some br →
          ∃ updated, setPolkadotAccountsWithBalance true cw o name prev = .ok updated ∧
            mget updated addr
              = some { old with balance := some (jsBalance br.available br.decimals) }) := by
  refine ⟨?_, ?_, ?_⟩
  · intro nrm o addr m b br ha hget ho
    rw [updateEthereumWallet, if_neg (by simp [ha])]
    dsimp only
    rw [ho]
    exact mget_mapSet_self m (nrm addr) _
  · intro w o m addr acc wl wa br hm hget hsig hw hg hsgn ho
    rw [mget_reinit w o m addr hm, hget, Option.map_some',
      reinitResult_success w o addr acc wl wa br hsig hw hg ho, hsgn]
  · intro cw o name addr prev wacc old b br hc hold hget ho
    rw [setPolkadotAccountsWithBalance, if_neg (by simp), hc]
    dsimp only
    rw [if_neg (by simp)]
    have htf : tagAndFetch o [(addr, wacc)]
        = some [(addr, { wacc with
                         signerType := SignerTypeEnum.Polkadot
                         balance := some (jsBalance br.available br.decimals) })] := by
      rw [tagAndFetch, ho]
      rfl
    rw [htf]
    dsimp only
    refine ⟨_, rfl, ?_⟩
    rw [mapOfEntries_append, hold]
    exact mget_mapSet_self (mapOfEntries [] prev) addr _

/-- C5 witness: the three refresh paths at concrete inputs. -/
theorem c5_witness :
    mget (updateEthereumWallet true mirror sampleOracle (some "a")
        [(mirror "a", ethereumAccount "a" none)]) (mirror "a")
      = some { ethereumAccount "a" none with balance := some (jsBalance 1 0) } ∧
      mget (reinitializePolkadotAccountsWithBalance true sampleWallet sampleOracle
          [("a1", { samplePolkadotAccount "a1" "n1" "Alice" with signer := some 7 })]) "a1"
        = some { { samplePolkadotAccount "a1" "n1" "Alice" with signer := some 7 } with
                 balance := some (jsBalance 1 0) } ∧
      ∃ updated, setPolkadotAccountsWithBalance true sampleConnectOne sampleOracle "pjs"
          [("p1", samplePolkadotAccount "p1" "np1" "One")] = .ok updated ∧
        mget updated "p1"
          = some { samplePolkadotAccount "p1" "np1" "One" with
                   balance := some (jsBalance 1 0) } :=
  ⟨c5_balance_refresh_frame.1 mirror sampleOracle "a"
      [(mirror "a", ethereumAccount "a" none)] none ⟨1, 0⟩ (by decide) (by decide) rfl,
   c5_balance_refresh_frame.2.1 sampleWallet sampleOracle
      [("a1", { samplePolkadotAccount "a1" "n1" "Alice" with signer := some 7 })] "a1"
      { samplePolkadotAccount "a1" "n1" "Alice" with signer := some 7 }
      [("n1", { samplePolkadotAccount "a1" "n1" "Alice" with signer := some 7 })]
      { samplePolkadotAccount "a1" "n1" "Alice" with signer := some 7 } ⟨1, 0⟩
      (by decide) (by decide) (by decide) rfl (by decide) (by decide) rfl,
   c5_balance_refresh_frame.2.2 sampleConnectOne sampleOracle "pjs" "p1"
      [("p1", samplePolkadotAccount "p1" "np1" "One")]
      (samplePolkadotAccount "p1" "np1" "One")
      { samplePolkadotAccount "p1" "np1" "One" with
        signerType := SignerTypeEnum.Polkadot
        balance := none } none ⟨1, 0⟩ rfl rfl (by decide) rfl⟩

/-- C6: `setSelectedAccountId` accepts any integer with no bounds check;
the derived `selectedAccount` is the record at that position of the
insertion order and is `undefined` whenever the index is out of range:
index 5 of a 2-account registry selects nothing, and after the registry
grows to 6 accounts the same stored index resolves to a record. -/
theorem c6_selection_safety :
    (∀ (m : AccMap) (i : ℤ), i < 0 ∨ (m.length : ℤ) ≤ i → selectedAccount m i = none) ∧
      (∀ (m : AccMap) (i : ℤ), 0 ≤ i → i < (m.length : ℤ) →
        ∃ hlt : i.toNat < (m.map Prod.snd).length,
          selectedAccount m i = some ((m.map Prod.snd).get ⟨i.toNat, hlt⟩)) ∧
      selectedAccount twoAccountRegistry 5 = none ∧
      (selectedAccount sixAccountRegistry 5).isSome = true := by
  refine ⟨?_, ?_, by decide, by decide⟩
  · intro m i hi
    rcases hi with h | h
    · rw [selectedAccount, if_pos h]
    · rw [selectedAccount, if_neg (by omega)]
      rw [List.get?_eq_none.mpr]
      rw [List.length_map]
      omega
  · intro m i h0 hlen
    have hlt : i.toNat < (m.map Prod.snd).length := by
      rw [List.length_map]
      omega
    refine ⟨hlt, ?_⟩
    rw [selectedAccount, if_neg (by omega)]
    exact List.get?_eq_get hlt

/-- C6 witness: the two concrete selection scenarios of the claim. -/
theorem c6_witness :
    selectedAccount twoAccountRegistry 5 = none ∧
      ∃ hlt : (5 : ℤ).toNat < (sixAccountRegistry.map Prod.snd).length,
        selectedAccount sixAccountRegistry 5
          = some ((sixAccountRegistry.map Prod.snd).get ⟨(5 : ℤ).toNat, hlt⟩) :=
  ⟨c6_selection_safety.1 twoAccountRegistry 5 (Or.inr (by decide)),
   c6_selection_safety.2.1 sixAccountRegistry 5 (by decide) (by decide)⟩

/-- C7: with the registry's keys distinct (as in every JavaScript Map)
and fixed wallet-extension and balance-oracle responses, running
`reinitializePolkadotAccountsWithBalance` twice produces the same
snapshot as running it once. -/
theorem c7_reinitialize_idempotent (sdk : Bool)
    (w : Option String → Option (JsMap Account)) (o : String → Option BalanceResponse)
    (m : AccMap) (hm : keysNodup m) :
    reinitializePolkadotAccountsWithBalance sdk w o
        (reinitializePolkadotAccountsWithBalance sdk w o m)
      = reinitializePolkadotAccountsWithBalance sdk w o m := by
  cases sdk with
  | false => rfl
  | true =>
    rw [reinit_eq_map w o m hm]
    have hm2 : keysNodup (m.map fun p => (p.1, reinitResult w o p.1 p.2)) := by
      unfold keysNodup
      rw [mkeys_map (fun k acc => reinitResult w o k acc) m]
      exact hm
    rw [reinit_eq_map w o _ hm2, List.map_map]
    refine List.map_congr_left fun p _ => ?_
    dsimp only [Function.comp]
    rw [reinitResult_idem]

/-- C7 witness: idempotence at the sample registry and sample wallet. -/
theorem c7_witness :
    reinitializePolkadotAccountsWithBalance true sampleWallet sampleOracle
        (reinitializePolkadotAccountsWithBalance true sampleWallet sampleOracle
          sampleRegistry)
      = reinitializePolkadotAccountsWithBalance true sampleWallet sampleOracle
          sampleRegistry :=
  c7_reinitialize_idempotent true sampleWallet sampleOracle sampleRegistry (by decide)

/-- C8: a malformed persisted accounts string is treated as no saved
state: the restore effect catches the parse failure, yields the empty
registry, and raises nothing to the caller. -/
theorem c8_corrupt_restore (parse : String → Option (JsMap PAccount)) (s : String)
    (h : parse s = none) :
    restoreAccounts parse (some s) = [] ∧
      restoreAccountsTry parse s = .error () ∧
      restoreAccounts parse (some s) = restoreAccounts parse none := by
  refine ⟨?_, ?_, ?_⟩ <;> simp [restoreAccounts, restoreAccountsTry, h]

/-- C8 witness: a parser rejecting a corrupt string leaves the registry
empty. -/
theorem c8_witness :
    restoreAccounts (fun _ => none) (some "corrupt") = [] :=
  (c8_corrupt_restore (fun _ => none) "corrupt" rfl).1

/-- C9: every stored balance is the oracle's available amount divided by
10^decimals, computed in binary64 floating point from that fetch's
response, at each of the three storage sites; for
available = "1500000000000000000" and decimals = 18 the stored balance
is exactly 1.5. -/
theorem c9_balance_arithmetic :
    (∀ (nrm : String → String) (o : String → Option BalanceResponse) (addr : String)
        (m : AccMap) (br : BalanceResponse), addr ≠ "" → o (nrm addr) = some br →
        ∃ acc, mget (updateEthereumWallet true nrm o (some addr) m) (nrm addr) = some acc
          ∧ acc.balance = some (jsBalance br.available br.decimals)) ∧
      (∀ (o : String → Option BalanceResponse) (l t : JsMap Account),
        tagAndFetch o l = some t →
        ∀ q ∈ t, ∃ br, o q.1 = some br
          ∧ q.2.balance = some (jsBalance br.available br.decimals)) ∧
      (∀ (w : Option String → Option (JsMap Account))
          (o : String → Option BalanceResponse) (addr : String) (acc : Account)
          (wl : JsMap Account) (wa : Account) (br : BalanceResponse),
          acc.signerType = SignerTypeEnum.Polkadot → w acc.walletType = some wl →
          mget wl acc.normalizedAddress = some wa → o addr = some br →
          (reinitResult w o addr acc).balance
            = some (jsBalance br.available br.decimals)) ∧
      parseDecDigits "1500000000000000000" = some 1500000000000000000 ∧
      jsBalance 1500000000000000000 18 = ⟨3, -1⟩ ∧
      Dyadic.toRat (jsBalance 1500000000000000000 18) = 3 / 2 := by
  refine ⟨?_, tagAndFetch_balance, ?_, by decide, by decide, ?_⟩
  · intro nrm o addr m br ha ho
    rw [updateEthereumWallet, if_neg (by simp [ha])]
    dsimp only
    rw [ho]
    exact ⟨_, mget_mapSet_self m (nrm addr) _, rfl⟩
  · intro w o addr acc wl wa br hsig hw hg ho
    rw [reinitResult_success w o addr acc wl wa br hsig hw hg ho]
  · rw [show jsBalance 1500000000000000000 18 = ⟨3, -1⟩ from by decide]
    simp [Dyadic.toRat, pow2]
    norm_num

/-- C9 witness: the Ethereum storage site at a concrete oracle
response. -/
theorem c9_witness :
    (∃ acc, mget (updateEthereumWallet true mirror sampleOracle (some "a") [])
          (mirror "a") = some acc ∧ acc.balance = some (jsBalance 1 0)) ∧
      Dyadic.toRat (jsBalance 1500000000000000000 18) = 3 / 2 :=
  ⟨c9_balance_arithmetic.1 mirror sampleOracle "a" [] ⟨1, 0⟩ (by decide) rfl,
   c9_balance_arithmetic.2.2.2.2.2⟩

/-- C10: if the wallet enumeration returns at least one account and some
per-account balance fetch rejects, the entire operation rejects with the
transport failure and the registry is left completely unchanged: the
merge is all-or-nothing with respect to balance-fetch failures. -/
theorem c10_merge_all_or_nothing (cw : String → Option (JsMap Account))
    (o : String → Option BalanceResponse) (name : String) (prev : AccMap)
    (l : JsMap Account) (hc : cw name = some l) (hl : l ≠ [])
    (hf : ∃ q ∈ l, o q.1 = none) :
    setPolkadotAccountsWithBalance true cw o name prev = .error .transport ∧
      applySetPolkadotAccountsWithBalance true cw o name prev = prev := by
  have herr : setPolkadotAccountsWithBalance true cw o name prev = .error .transport := by
    rw [setPolkadotAccountsWithBalance, if_neg (by simp), hc]
    dsimp only
    rw [if_neg hl, tagAndFetch_none o l hf]
  refine ⟨herr, ?_⟩
  rw [applySetPolkadotAccountsWithBalance, herr]

/-- C10 witness: the two-account enumeration with every balance fetch
rejecting leaves the sample registry untouched. -/
theorem c10_witness :
    setPolkadotAccountsWithBalance true sampleConnectWallet failingOracle "subwallet"
        sampleRegistry = .error .transport ∧
      applySetPolkadotAccountsWithBalance true sampleConnectWallet failingOracle
        "subwallet" sampleRegistry = sampleRegistry :=
  c10_merge_all_or_nothing sampleConnectWallet failingOracle "subwallet" sampleRegistry
    twoPolkadotEntries rfl (by decide)
    ⟨("p1", samplePolkadotAccount "p1" "np1" "One"), by decide, rfl⟩
